import Mathlib

/-!
Verification development for the retrieval-based FAQ matcher in
PycharmProjects/PythonProject5/chatbot.py.

Modelling conventions:
* Python strings are Lean `String`s; line-level processing works on `List Char`.
* `str.strip()` is `pyStrip` (Python whitespace, ASCII fragment).
* `corpus_text.splitlines()` is modelled as splitting on the newline
  character (universal-newline forms reduce to this after stripping).
* The regex token `\w` (in `simple_analyzer`) is modelled on its ASCII
  fragment: letters, digits and underscore.
* `sklearn.TfidfVectorizer` with the custom analyzer: the fitted vocabulary
  is the set of distinct analyzer tokens of the documents; `fit_transform`
  raises ValueError (here: `BuildError.emptyVocabulary`) exactly when that
  vocabulary is empty.  Tf-idf weights (smooth idf) and cosine similarity
  are modelled over the reals.
-/

/-- Python whitespace characters (the characters matched by `\s` and
stripped by `str.strip()`), ASCII fragment. -/
def isSpace (c : Char) : Bool :=
  c = ' ' || c = '\t' || c = '\n' || c = '\r' || c = '\x0b' || c = '\x0c'

/-- Python `str.strip()` on a character list: drop leading and trailing
whitespace. -/
def pyStrip (l : List Char) : List Char :=
  ((l.dropWhile isSpace).reverse.dropWhile isSpace).reverse

/-- Python `str.strip()` on strings. -/
def pyStripS (s : String) : String :=
  ⟨pyStrip s.data⟩

/-- A word character in the sense of the regex `\w` (ASCII fragment):
letter, digit or underscore. -/
def isWordChar (c : Char) : Bool :=
  c.isAlphanum || c = '_'

/-- Helper for the tokenizer: scan the character list, accumulating the
current (reversed) run of word characters. -/
def tokAux : List Char → List Char → List String
  | [], acc => if acc.isEmpty then [] else [⟨acc.reverse⟩]
  | c :: rest, acc =>
    if isWordChar c then tokAux rest (c :: acc)
    else if acc.isEmpty then tokAux rest []
    else ⟨acc.reverse⟩ :: tokAux rest []

/-- `simple_analyzer` from chatbot.py: lowercase the text, then extract the
maximal runs of word characters.  The Python code returns `[]` for an
empty text before running the regex; that branch is kept. -/
def simple_analyzer (s : String) : List String :=
  if s = "" then [] else tokAux (s.data.map Char.toLower) []

/-- The fitted vocabulary of `TfidfVectorizer(analyzer=simple_analyzer)`:
the distinct tokens occurring in the documents. -/
def vocabOf (docs : List String) : List String :=
  ((docs.map simple_analyzer).flatten).dedup

/-- Document frequency of a term: the number of documents containing it. -/
def dfOf (docs : List String) (t : String) : Nat :=
  (docs.filter (fun d => decide (t ∈ simple_analyzer d))).length

/-- Python `"\n"`-splitting of a character list, mirroring
`str.splitlines` for newline-separated text (an empty input gives one
empty line, which the parser then skips as blank, matching
`"".splitlines() == []` up to blank-line handling). -/
def splitOnNl : List Char → List (List Char)
  | [] => [[]]
  | c :: rest =>
    if c = '\n' then [] :: splitOnNl rest
    else
      match splitOnNl rest with
      | [] => [[c]]
      | l :: ls => (c :: l) :: ls

/-- `line.lower().startswith("q:")` on an already-stripped line. -/
def isQTag (l : List Char) : Bool :=
  match l with
  | c1 :: c2 :: _ => c1.toLower = 'q' && c2.toLower = ':'
  | _ => false

/-- `line.lower().startswith("a:")` on an already-stripped line. -/
def isATag (l : List Char) : Bool :=
  match l with
  | c1 :: c2 :: _ => c1.toLower = 'a' && c2.toLower = ':'
  | _ => false

/-- `line[2:].strip()`: the payload of a `Q:`/`A:` line. -/
def tagRest (l : List Char) : List Char :=
  pyStrip (l.drop 2)

/-- The line loop of `parse_qa`: state is the open question `q?` and open
answer `a?` (Python `q` and `a`, with `None` as `none`); a complete pair is
committed on the next `Q:` line or at end of input. -/
def goQA : List (List Char) → Option (List Char) → Option (List Char) →
    List String × List String
  | [], q?, a? =>
    match q?, a? with
    | some q, some a => ([⟨q⟩], [⟨a⟩])
    | _, _ => ([], [])
  | l :: rest, q?, a? =>
    let line := pyStrip l
    if line = [] then goQA rest q? a?
    else if isQTag line then
      let committed : List String × List String :=
        match q?, a? with
        | some q, some a => ([⟨q⟩], [⟨a⟩])
        | _, _ => ([], [])
      let next := goQA rest (some (tagRest line)) none
      (committed.1 ++ next.1, committed.2 ++ next.2)
    else if isATag line then goQA rest q? (some (tagRest line))
    else
      match a? with
      | some a => goQA rest q? (some (a ++ ' ' :: line))
      | none =>
        match q? with
        | some q => goQA rest (some (q ++ ' ' :: line)) none
        | none => goQA rest none none

/-- `parse_qa` from chatbot.py. -/
def parse_qa (c : String) : List String × List String :=
  goQA (splitOnNl c.data) none none

/-- `re.sub` replacement step: every whitespace character becomes a plain
space. -/
def toSpace (c : Char) : Char :=
  if isSpace c then ' ' else c

/-- Collapse runs of spaces to a single space. -/
def squeeze : List Char → List Char
  | [] => []
  | [c] => [c]
  | a :: b :: rest =>
    if a = ' ' && b = ' ' then squeeze (b :: rest)
    else a :: squeeze (b :: rest)

/-- `re.sub(r"\s+", " ", text)`: map whitespace to spaces, collapse runs. -/
def collapseWS (l : List Char) : List Char :=
  squeeze (l.map toSpace)

/-- A sentence-terminating punctuation character. -/
def isPunct (c : Char) : Bool :=
  c = '.' || c = '!' || c = '?'

/-- Does the accumulated (reversed) fragment end with `.`, `!` or `?` -/
def punctHead : List Char → Bool
  | p :: _ => isPunct p
  | [] => false

/-- `re.split(r"(?<=[.!?])\s+", text)` on whitespace-collapsed text (where
the separator run `\s+` is a single space): cut before a space whose
predecessor is sentence punctuation, dropping the space. -/
def resplitAux : List Char → List Char → List (List Char)
  | [], acc => [acc.reverse]
  | c :: rest, acc =>
    if isSpace c && punctHead acc then acc.reverse :: resplitAux rest []
    else resplitAux rest (c :: acc)

/-- `SimpleChatbot._split_sentences` from chatbot.py. -/
def splitSentences (s : String) : List String :=
  let t := collapseWS (pyStrip s.data)
  if t = [] then []
  else ((resplitAux t []).filter (fun f => !f.isEmpty)).map
    (fun f => (⟨f⟩ : String))

/-- The operating mode recorded in `self.mode`. -/
inductive Mode where
  | qa : Mode
  | sentences : Mode
  deriving DecidableEq

/-- The state a successfully constructed `SimpleChatbot` freezes:
either questions paired with answers, or standalone sentences. -/
inductive Matcher where
  | qa (questions answers : List String) : Matcher
  | sentences (sents : List String) : Matcher
  deriving DecidableEq

/-- `self.mode`. -/
def Matcher.mode : Matcher → Mode
  | .qa _ _ => Mode.qa
  | .sentences _ => Mode.sentences

/-- The item sequence the vectorizer is fitted on (`self.questions` or
`self.sentences`). -/
def Matcher.items : Matcher → List String
  | .qa qs _ => qs
  | .sentences ss => ss

/-- The payload returned at the winning index (`self.answers` in QA mode,
`self.sentences` in sentence mode). -/
def Matcher.payload : Matcher → List String
  | .qa _ ans => ans
  | .sentences ss => ss

/-- The exception `TfidfVectorizer.fit_transform` raises when the analyzer
produces no token at all (sklearn ValueError: empty vocabulary). -/
inductive BuildError where
  | emptyVocabulary : BuildError
  deriving DecidableEq

instance {ε α : Type} [DecidableEq ε] [DecidableEq α] :
    DecidableEq (Except ε α) := fun a b =>
  match a, b with
  | .error e, .error f => decidable_of_iff (e = f) (by simp)
  | .error _, .ok _ => isFalse (by simp)
  | .ok _, .error _ => isFalse (by simp)
  | .ok a, .ok b => decidable_of_iff (a = b) (by simp)

/-- The sentence-mode item list of `SimpleChatbot.__init__`:
`_split_sentences(corpus_text or "")`, falling back to
`[(corpus_text or "I have no data yet.").strip()]` when empty. -/
def fallbackSentences (c : String) : List String :=
  let ss := splitSentences c
  if ss = [] then [pyStripS (if c = "" then ("I have no data yet.") else c)]
  else ss

/-- `SimpleChatbot.__init__`: parse the corpus; with a usable pair list fit
the vectorizer on the questions (QA mode), otherwise on the fallback
sentences (sentence mode).  Fitting fails iff the vocabulary is empty. -/
def build (c : String) : Except BuildError Matcher :=
  let p := parse_qa c
  if p.1 ≠ [] ∧ p.2 ≠ [] ∧ p.1.length = p.2.length then
    if vocabOf p.1 = [] then .error .emptyVocabulary
    else .ok (.qa p.1 p.2)
  else
    let ss := fallbackSentences c
    if vocabOf ss = [] then .error .emptyVocabulary
    else .ok (.sentences ss)

/-- The item list `__init__` selects for vectorization (questions when the
QA guard holds, fallback sentences otherwise). -/
def selectedItems (c : String) : List String :=
  let p := parse_qa c
  if p.1 ≠ [] ∧ p.2 ≠ [] ∧ p.1.length = p.2.length then p.1
  else fallbackSentences c

/-- Smooth inverse document frequency, sklearn default:
idf(t) = ln((1 + n) / (1 + df(t))) + 1. -/
noncomputable def idfOf (docs : List String) (t : String) : ℝ :=
  Real.log ((1 + docs.length) / (1 + dfOf docs t)) + 1

/-- Dot product of two term-indexed vectors over a vocabulary list. -/
noncomputable def dotV (vocab : List String) (f g : String → ℝ) : ℝ :=
  (vocab.map (fun t => f t * g t)).sum

/-- The (unnormalized) tf-idf weight of term `t` for text `d` in the space
fitted on `docs`: raw term count times idf.  Queries are transformed with
the same frozen idf weights; tokens outside the vocabulary never get
summed because `dotV` ranges over the fitted vocabulary only. -/
noncomputable def tfidfVec (docs : List String) (d : String) (t : String) : ℝ :=
  ((simple_analyzer d).count t : ℝ) * idfOf docs t

/-- Cosine similarity of the tf-idf vectors of `q` and `d` in the space
fitted on `docs`.  sklearn L2-normalizes both the stored rows and the
query row, leaving zero rows zero; composing that with
`cosine_similarity` gives exactly: 0 when either vector is zero, the
normalized dot product otherwise. -/
noncomputable def simDoc (docs : List String) (q d : String) : ℝ :=
  let v := vocabOf docs
  let nq := Real.sqrt (dotV v (tfidfVec docs q) (tfidfVec docs q))
  let nd := Real.sqrt (dotV v (tfidfVec docs d) (tfidfVec docs d))
  if nq = 0 ∨ nd = 0 then 0
  else dotV v (tfidfVec docs q) (tfidfVec docs d) / (nq * nd)

/-- `cosine_similarity(user_vec, self.q_matrix).flatten()`: one score per
stored item. -/
noncomputable def simList (docs : List String) (q : String) : List ℝ :=
  docs.map (fun d => simDoc docs q d)

/-- `np.argmax` on a score list: the index of the first occurrence of the
maximum value (0 for the empty list, on which numpy would raise; the
matcher never scores an empty item list). -/
noncomputable def argmaxIdx : List ℝ → Nat
  | [] => 0
  | [_] => 0
  | x :: y :: rest =>
    let j := argmaxIdx (y :: rest)
    if x < (y :: rest).getD j 0 then j + 1 else 0

/-- `SimpleChatbot.reply`. -/
noncomputable def reply (m : Matcher) (userText : String) : String :=
  let t := pyStripS userText
  if t = "" then ("Say something and I\x27ll try to help!")
  else
    let sims := simList m.items t
    let idx := argmaxIdx sims
    let score := sims.getD idx 0
    if score < (0.10 : ℝ) then ("I\x27m not sure I understood. Could you rephrase?")
    else m.payload.getD idx ("")

/-- Is this raw line NOT a `Q:` line (after stripping)?  Lines satisfying
this predicate are exactly the lines that never start a new pair. -/
def notQ (l : List Char) : Bool :=
  !(isQTag (pyStrip l))

/-- Specification-side reading of a question: the remainder of its `Q:`
line, extended (space-joined) with every non-blank continuation line
before the first `A:` line of the region. -/
def qOfBody (q : List Char) : List (List Char) → List Char
  | [] => q
  | l :: rest =>
    let s := pyStrip l
    if s = [] then qOfBody q rest
    else if isATag s then q
    else qOfBody (q ++ ' ' :: s) rest

/-- Specification-side reading of an answer within a region: each `A:`
line starts the answer afresh (so the last `A:` line of the region wins)
and every following non-blank line is space-joined onto it; continuation
lines met while no answer is open are not part of any answer. -/
def aOfBody (a? : Option (List Char)) : List (List Char) → Option (List Char)
  | [] => a?
  | l :: rest =>
    let s := pyStrip l
    if s = [] then aOfBody a? rest
    else if isATag s then aOfBody (some (tagRest s)) rest
    else
      aOfBody (match a? with
        | some a => some (a ++ ' ' :: s)
        | none => none) rest

/-- Specification-side pair extraction from the claim's description:
`rest` is the region body of one `Q:` line whose question payload is `q`,
followed by the later regions.  The region body is everything up to the
next `Q:` line; a pair is emitted iff the region contains an `A:` line,
its answer being that (last) `A:` line's text with its continuation
lines. -/
def specFrom : Nat → List Char → List (List Char) → List (String × String)
  | 0, _, _ => []
  | fuel + 1, q, rest =>
    (match aOfBody none (rest.takeWhile notQ) with
     | some a => [((⟨qOfBody q (rest.takeWhile notQ)⟩ : String), (⟨a⟩ : String))]
     | none => []) ++
    (match rest.dropWhile notQ with
     | [] => []
     | l2 :: rest3 => specFrom fuel (tagRest (pyStrip l2)) rest3)

/-- Specification-side pair list for a whole line list: everything before
the first `Q:` line contributes nothing; from the first `Q:` line on,
pairs are the per-region extractions.  The fuel argument of `specFrom`
only bounds the recursion depth (one unit per region); a region list of
length n has at most n regions, so the bound below never bites. -/
def qaPairsSpec (ls : List (List Char)) : List (String × String) :=
  match ls.dropWhile notQ with
  | [] => []
  | l :: rest => specFrom (rest.length + 1) (tagRest (pyStrip l)) rest

/-- Unzip a pair list into parallel question/answer lists. -/
def pairsToLists (ps : List (String × String)) : List String × List String :=
  (ps.map Prod.fst, ps.map Prod.snd)

/-- Space-join a fragment list (inverse of splitting at boundaries). -/
def joinSp : List (List Char) → List Char
  | [] => []
  | [f] => f
  | f :: g :: rest => f ++ ' ' :: joinSp (g :: rest)

theorem dropWhile_length_le {α : Type} (p : α → Bool) :
    ∀ (l : List α), (l.dropWhile p).length ≤ l.length := by
  intro l
  induction l with
  | nil => simp
  | cons a l ih =>
    rw [List.dropWhile_cons]
    split
    · exact Nat.le_succ_of_le ih
    · simp

theorem dropWhile_head_false {α : Type} (p : α → Bool) :
    ∀ (l : List α) (x : α) (xs : List α), l.dropWhile p = x :: xs → p x = false := by
  intro l
  induction l with
  | nil => intro x xs h; simp at h
  | cons a l ih =>
    intro x xs h
    rw [List.dropWhile_cons] at h
    by_cases hp : p a = true
    · exact ih x xs (by rwa [if_pos hp] at h)
    · rw [if_neg hp] at h
      cases h
      exact eq_false_of_ne_true hp

theorem getD_zero_of_all_zero : ∀ (l : List ℝ) (n : Nat),
    (∀ s ∈ l, s = 0) → l.getD n 0 = 0 := by
  intro l
  induction l with
  | nil => intro n _; simp
  | cons a l ih =>
    intro n h
    cases n with
    | zero => simpa using h a (by simp)
    | succ n =>
      rw [List.getD_cons_succ]
      exact ih n (fun s hs => h s (by simp [hs]))

theorem argmaxIdx_lt_length : ∀ (l : List ℝ), l ≠ [] → argmaxIdx l < l.length
  | [], h => absurd rfl h
  | [_], _ => by simp [argmaxIdx]
  | x :: y :: rest, _ => by
    have ih := argmaxIdx_lt_length (y :: rest) (by simp)
    simp only [List.length_cons] at ih ⊢
    by_cases hc : x < (y :: rest).getD (argmaxIdx (y :: rest)) 0
    · simp only [argmaxIdx, hc, if_true, List.length_cons]
      omega
    · simp only [argmaxIdx]
      rw [if_neg hc]
      omega

theorem argmaxIdx_ge : ∀ (l : List ℝ) (i : Nat), i < l.length →
    l.getD i 0 ≤ l.getD (argmaxIdx l) 0
  | [], i, h => by simp at h
  | [_], 0, _ => by simp [argmaxIdx]
  | [_], i + 1, h => by
    simp only [List.length_singleton] at h
    omega
  | x :: y :: rest, 0, _ => by
    by_cases hc : x < (y :: rest).getD (argmaxIdx (y :: rest)) 0
    · simp only [argmaxIdx, hc, if_true, List.getD_cons_succ, List.getD_cons_zero]
      exact le_of_lt hc
    · simp only [argmaxIdx]
      rw [if_neg hc]
  | x :: y :: rest, i + 1, h => by
    have h' : i < (y :: rest).length := by
      simp only [List.length_cons] at h ⊢
      omega
    have ih := argmaxIdx_ge (y :: rest) i h'
    by_cases hc : x < (y :: rest).getD (argmaxIdx (y :: rest)) 0
    · simpa only [argmaxIdx, hc, if_true, List.getD_cons_succ] using ih
    · simp only [argmaxIdx]
      rw [if_neg hc, List.getD_cons_succ, List.getD_cons_zero]
      exact le_trans ih (le_of_not_lt hc)

theorem argmaxIdx_first : ∀ (l : List ℝ) (i : Nat), i < l.length →
    l.getD (argmaxIdx l) 0 ≤ l.getD i 0 → argmaxIdx l ≤ i
  | [], i, h, _ => by simp at h
  | [_], 0, _, _ => by simp [argmaxIdx]
  | [_], i + 1, h, _ => by
    simp only [List.length_singleton] at h
    omega
  | x :: y :: rest, 0, _, hle => by
    by_cases hc : x < (y :: rest).getD (argmaxIdx (y :: rest)) 0
    · exfalso
      simp only [argmaxIdx, hc, if_true, List.getD_cons_succ, List.getD_cons_zero] at hle
      exact absurd (lt_of_lt_of_le hc hle) (lt_irrefl x)
    · simp only [argmaxIdx]
      rw [if_neg hc]
  | x :: y :: rest, i + 1, h, hle => by
    have h' : i < (y :: rest).length := by
      simp only [List.length_cons] at h ⊢
      omega
    by_cases hc : x < (y :: rest).getD (argmaxIdx (y :: rest)) 0
    · have hle' : (y :: rest).getD (argmaxIdx (y :: rest)) 0 ≤ (y :: rest).getD i 0 := by
        simpa only [argmaxIdx, hc, if_true, List.getD_cons_succ] using hle
      have ih := argmaxIdx_first (y :: rest) i h' hle'
      simp only [argmaxIdx, hc, if_true]
      omega
    · simp only [argmaxIdx]
      rw [if_neg hc]
      exact Nat.zero_le _

theorem simList_length (docs : List String) (q : String) :
    (simList docs q).length = docs.length := by
  simp [simList]

theorem dotV_self_zero (v : List String) (f : String → ℝ)
    (h : ∀ t ∈ v, f t = 0) : dotV v f f = 0 := by
  unfold dotV
  apply List.sum_eq_zero
  intro x hx
  obtain ⟨t, ht, rfl⟩ := List.mem_map.1 hx
  rw [h t ht]
  ring

theorem simDoc_zero_of_orthog (docs : List String) (q d : String)
    (h : ∀ t ∈ vocabOf docs, (simple_analyzer q).count t = 0) :
    simDoc docs q d = 0 := by
  have hq : ∀ t ∈ vocabOf docs, tfidfVec docs q t = 0 := by
    intro t ht
    unfold tfidfVec
    rw [h t ht]
    simp
  have h0 : dotV (vocabOf docs) (tfidfVec docs q) (tfidfVec docs q) = 0 :=
    dotV_self_zero _ _ hq
  simp only [simDoc]
  rw [h0, Real.sqrt_zero]
  simp

theorem simList_zero_of_orthog (docs : List String) (q : String)
    (h : ∀ t ∈ vocabOf docs, (simple_analyzer q).count t = 0) :
    ∀ s ∈ simList docs q, s = 0 := by
  intro s hs
  simp only [simList, List.mem_map] at hs
  obtain ⟨d, _, rfl⟩ := hs
  exact simDoc_zero_of_orthog docs q d h

theorem reply_of_blank (m : Matcher) (q : String) (h : pyStripS q = "") :
    reply m q = ("Say something and I\x27ll try to help!") := by
  simp [reply, h]

theorem reply_of_low (m : Matcher) (q : String) (h : pyStripS q ≠ "")
    (hlt : (simList m.items (pyStripS q)).getD
      (argmaxIdx (simList m.items (pyStripS q))) 0 < (0.10 : ℝ)) :
    reply m q = ("I\x27m not sure I understood. Could you rephrase?") := by
  simp only [reply]
  rw [if_neg h, if_pos hlt]

theorem reply_of_high (m : Matcher) (q : String) (h : pyStripS q ≠ "")
    (hge : ¬ (simList m.items (pyStripS q)).getD
      (argmaxIdx (simList m.items (pyStripS q))) 0 < (0.10 : ℝ)) :
    reply m q = m.payload.getD (argmaxIdx (simList m.items (pyStripS q))) ("") := by
  simp only [reply]
  rw [if_neg h, if_neg hge]

theorem build_ok_facts (c : String) (m : Matcher) (h : build c = .ok m) :
    m.items ≠ [] ∧ m.payload.length = m.items.length ∧ vocabOf m.items ≠ [] := by
  simp only [build] at h
  split at h
  next hg =>
    split at h
    next => simp at h
    next hv =>
      obtain rfl : Matcher.qa (parse_qa c).1 (parse_qa c).2 = m := by
        simpa using h
      refine ⟨hg.1, ?_, hv⟩
      simp only [Matcher.items, Matcher.payload]
      exact hg.2.2.symm
  next =>
    split at h
    next => simp at h
    next hv =>
      obtain rfl : Matcher.sentences (fallbackSentences c) = m := by
        simpa using h
      have hne : fallbackSentences c ≠ [] := by
        simp only [fallbackSentences]
        by_cases hss : splitSentences c = []
        · rw [if_pos hss]
          simp
        · rw [if_neg hss]
          exact hss
      exact ⟨hne, rfl, hv⟩

/-- Claim C7: for every matcher and every query whose trimmed form is
empty, reply returns exactly the fixed nudge message.  The empty check is
the first branch of reply, taken before any vectorization or similarity
scoring (the result does not depend on the stored items at all). -/
theorem claim7_empty_query (m : Matcher) (q : String) (h : pyStripS q = "") :
    reply m q = ("Say something and I\x27ll try to help!") :=
  reply_of_blank m q h

/-- Witness for C7 at a whitespace-only query. -/
theorem claim7_witness :
    pyStripS ("  ") = "" ∧
    reply (.sentences [("hello")]) ("  ") =
      ("Say something and I\x27ll try to help!") :=
  ⟨by decide, claim7_empty_query (.sentences [("hello")]) ("  ") (by decide)⟩

/-- Claim C4: for a constructed matcher and a non-blank query, if the
winning (maximum) similarity score is strictly below 0.10, reply returns
the fixed rephrase message instead of any stored payload; in particular a
query orthogonal to every stored item (all scores 0) gets that message. -/
theorem claim4_threshold (c : String) (m : Matcher) (q : String)
    (hok : build c = .ok m) (h : pyStripS q ≠ "") :
    ((simList m.items (pyStripS q)).getD
        (argmaxIdx (simList m.items (pyStripS q))) 0 < (0.10 : ℝ) →
      reply m q = ("I\x27m not sure I understood. Could you rephrase?")) ∧
    ((∀ s ∈ simList m.items (pyStripS q), s = 0) →
      reply m q = ("I\x27m not sure I understood. Could you rephrase?")) := by
  constructor
  · intro hlt
    exact reply_of_low m q h hlt
  · intro hz
    apply reply_of_low m q h
    rw [getD_zero_of_all_zero _ _ hz]
    norm_num

/-- Witness for C4: a single-sentence matcher and a query with no token in
common with it; every score is 0 and reply answers with the rephrase
message. -/
theorem claim4_witness :
    reply (.sentences [("hi")]) ("xyz") =
      ("I\x27m not sure I understood. Could you rephrase?") := by
  have h := (claim4_threshold ("hi") (.sentences [("hi")]) ("xyz")
    (by decide) (by decide)).2
  apply h
  apply simList_zero_of_orthog
  decide

/-- Claim C6: for a constructed matcher, reply is a total function (the
model never indexes out of bounds, hence the code never raises) and its
result is always a stored payload item (an answer in QA mode, a sentence
in sentence mode) or one of the two fixed fallback messages; moreover a
query whose vector is zero over the frozen vocabulary scores 0 against
every stored item instead of causing a division by zero. -/
theorem claim6_totality (c : String) (m : Matcher) (q : String)
    (hok : build c = .ok m) :
    (reply m q = ("Say something and I\x27ll try to help!") ∨
     reply m q = ("I\x27m not sure I understood. Could you rephrase?") ∨
     reply m q ∈ m.payload) ∧
    ((∀ t ∈ vocabOf m.items, (simple_analyzer (pyStripS q)).count t = 0) →
      ∀ s ∈ simList m.items (pyStripS q), s = 0) := by
  obtain ⟨hitems, hlen, _⟩ := build_ok_facts c m hok
  constructor
  · by_cases hq : pyStripS q = ""
    · exact Or.inl (reply_of_blank m q hq)
    · by_cases hlt : (simList m.items (pyStripS q)).getD
        (argmaxIdx (simList m.items (pyStripS q))) 0 < (0.10 : ℝ)
      · exact Or.inr (Or.inl (reply_of_low m q hq hlt))
      · refine Or.inr (Or.inr ?_)
        rw [reply_of_high m q hq hlt]
        have hsne : simList m.items (pyStripS q) ≠ [] := by
          simp only [simList, ne_eq, List.map_eq_nil_iff]
          exact hitems
        have hidx : argmaxIdx (simList m.items (pyStripS q)) < m.payload.length := by
          rw [hlen, ← simList_length m.items (pyStripS q)]
          exact argmaxIdx_lt_length _ hsne
        rw [List.getD_eq_getElem _ _ hidx]
        exact List.getElem_mem hidx
  · intro hz
    exact simList_zero_of_orthog m.items (pyStripS q) hz

/-- Witness for C6 at a one-sentence matcher and an out-of-vocabulary
query. -/
theorem claim6_witness :
    (reply (.sentences [("hello")]) ("xyz") =
        ("Say something and I\x27ll try to help!") ∨
     reply (.sentences [("hello")]) ("xyz") =
        ("I\x27m not sure I understood. Could you rephrase?") ∨
     reply (.sentences [("hello")]) ("xyz") ∈
        Matcher.payload (.sentences [("hello")])) ∧
    ((∀ t ∈ vocabOf (Matcher.items (.sentences [("hello")])),
        (simple_analyzer (pyStripS ("xyz"))).count t = 0) →
      ∀ s ∈ simList (Matcher.items (.sentences [("hello")])) (pyStripS ("xyz")),
        s = 0) :=
  claim6_totality ("hello") (.sentences [("hello")]) ("xyz") (by decide)

/-- Claim C8: reply selects the stored item with the maximum similarity
score and breaks ties by lowest index (stable argmax, first occurrence):
the winning index scores at least every index, any index scoring as much
as the winner lies at or after the winner, and in the confident branch
reply returns the payload at exactly the winning index. -/
theorem claim8_stable_argmax (c : String) (m : Matcher) (q : String) (i : Nat)
    (hok : build c = .ok m)
    (hi : i < (simList m.items (pyStripS q)).length) :
    ((simList m.items (pyStripS q)).getD i 0 ≤
      (simList m.items (pyStripS q)).getD
        (argmaxIdx (simList m.items (pyStripS q))) 0) ∧
    ((simList m.items (pyStripS q)).getD
        (argmaxIdx (simList m.items (pyStripS q))) 0 ≤
      (simList m.items (pyStripS q)).getD i 0 →
      argmaxIdx (simList m.items (pyStripS q)) ≤ i) ∧
    (pyStripS q ≠ "" →
      ¬ (simList m.items (pyStripS q)).getD
          (argmaxIdx (simList m.items (pyStripS q))) 0 < (0.10 : ℝ) →
      reply m q = m.payload.getD (argmaxIdx (simList m.items (pyStripS q))) ("")) :=
  ⟨argmaxIdx_ge _ i hi, argmaxIdx_first _ i hi,
   fun h hge => reply_of_high m q h hge⟩

/-- Witness for C8 at a one-sentence matcher, query equal to the sentence,
index 0. -/
theorem claim8_witness :
    ((simList (Matcher.items (.sentences [("hi")])) (pyStripS ("hi"))).getD 0 0 ≤
      (simList (Matcher.items (.sentences [("hi")])) (pyStripS ("hi"))).getD
        (argmaxIdx (simList (Matcher.items (.sentences [("hi")])) (pyStripS ("hi")))) 0) ∧
    ((simList (Matcher.items (.sentences [("hi")])) (pyStripS ("hi"))).getD
        (argmaxIdx (simList (Matcher.items (.sentences [("hi")])) (pyStripS ("hi")))) 0 ≤
      (simList (Matcher.items (.sentences [("hi")])) (pyStripS ("hi"))).getD 0 0 →
      argmaxIdx (simList (Matcher.items (.sentences [("hi")])) (pyStripS ("hi"))) ≤ 0) ∧
    (pyStripS ("hi") ≠ "" →
      ¬ (simList (Matcher.items (.sentences [("hi")])) (pyStripS ("hi"))).getD
          (argmaxIdx (simList (Matcher.items (.sentences [("hi")])) (pyStripS ("hi")))) 0 < (0.10 : ℝ) →
      reply (.sentences [("hi")]) ("hi") =
        (Matcher.payload (.sentences [("hi")])).getD
          (argmaxIdx (simList (Matcher.items (.sentences [("hi")])) (pyStripS ("hi")))) ("")) :=
  claim8_stable_argmax ("hi") (.sentences [("hi")]) ("hi") 0 (by decide)
    (by rw [simList_length]; decide)

theorem isQTag_nonblank (l : List Char) (h : isQTag l = true) : l ≠ [] := by
  intro h0
  rw [h0] at h
  simp [isQTag] at h

theorem goQA_start : ∀ (ls : List (List Char)) (a? : Option (List Char)),
    goQA ls none a? = goQA (ls.dropWhile notQ) none none := by
  intro ls
  induction ls with
  | nil =>
    intro a?
    cases a? <;> simp [goQA]
  | cons l rest ih =>
    intro a?
    rw [List.dropWhile_cons]
    by_cases hq : isQTag (pyStrip l) = true
    · have hnq : notQ l = false := by simp [notQ, hq]
      rw [hnq]
      simp only [Bool.false_eq_true, if_false]
      have hne : pyStrip l ≠ [] := isQTag_nonblank _ hq
      simp only [goQA]
      rw [if_neg hne, if_neg hne]
      simp only [hq, if_true]
    · have hq' : isQTag (pyStrip l) = false := eq_false_of_ne_true hq
      have hnq : notQ l = true := by simp [notQ, hq']
      rw [hnq]
      simp only [if_true]
      by_cases hb : pyStrip l = []
      · simp only [goQA]
        rw [if_pos hb]
        exact ih a?
      · by_cases ha : isATag (pyStrip l) = true
        · simp only [goQA]
          rw [if_neg hb, if_neg (show ¬ isQTag (pyStrip l) = true by simp [hq']),
            if_pos ha]
          exact ih _
        · have ha' : isATag (pyStrip l) = false := eq_false_of_ne_true ha
          simp only [goQA]
          rw [if_neg hb, if_neg (show ¬ isQTag (pyStrip l) = true by simp [hq']),
            if_neg (show ¬ isATag (pyStrip l) = true by simp [ha'])]
          cases a? with
          | none => exact ih none
          | some a => exact ih _

theorem goQA_body_some : ∀ (body rest : List (List Char)) (q a : List Char),
    (∀ l ∈ body, notQ l = true) →
    goQA (body ++ rest) (some q) (some a) =
      goQA rest (some q) (aOfBody (some a) body) := by
  intro body
  induction body with
  | nil =>
    intro rest q a _
    simp [aOfBody]
  | cons l body' ih =>
    intro rest q a hb
    have hl : notQ l = true := hb l (by simp)
    have hq' : isQTag (pyStrip l) = false := by simpa [notQ] using hl
    have hrest : ∀ x ∈ body', notQ x = true := fun x hx => hb x (by simp [hx])
    rw [List.cons_append]
    by_cases hblank : pyStrip l = []
    · simp only [goQA]
      rw [if_pos hblank, ih rest q a hrest]
      simp only [aOfBody]
      rw [if_pos hblank]
    · by_cases ha : isATag (pyStrip l) = true
      · simp only [goQA]
        rw [if_neg hblank,
          if_neg (show ¬ isQTag (pyStrip l) = true by simp [hq']), if_pos ha,
          ih rest q _ hrest]
        simp only [aOfBody]
        rw [if_neg hblank, if_pos ha]
      · have ha' : isATag (pyStrip l) = false := eq_false_of_ne_true ha
        simp only [goQA]
        rw [if_neg hblank,
          if_neg (show ¬ isQTag (pyStrip l) = true by simp [hq']),
          if_neg (show ¬ isATag (pyStrip l) = true by simp [ha']),
          ih rest q _ hrest]
        simp only [aOfBody]
        rw [if_neg hblank,
          if_neg (show ¬ isATag (pyStrip l) = true by simp [ha'])]

theorem goQA_body_none : ∀ (body rest : List (List Char)) (q : List Char),
    (∀ l ∈ body, notQ l = true) →
    goQA (body ++ rest) (some q) none =
      goQA rest (some (qOfBody q body)) (aOfBody none body) := by
  intro body
  induction body with
  | nil =>
    intro rest q _
    simp [qOfBody, aOfBody]
  | cons l body' ih =>
    intro rest q hb
    have hl : notQ l = true := hb l (by simp)
    have hq' : isQTag (pyStrip l) = false := by simpa [notQ] using hl
    have hrest : ∀ x ∈ body', notQ x = true := fun x hx => hb x (by simp [hx])
    rw [List.cons_append]
    by_cases hblank : pyStrip l = []
    · simp only [goQA]
      rw [if_pos hblank, ih rest q hrest]
      simp only [qOfBody, aOfBody]
      rw [if_pos hblank, if_pos hblank]
    · by_cases ha : isATag (pyStrip l) = true
      · simp only [goQA]
        rw [if_neg hblank,
          if_neg (show ¬ isQTag (pyStrip l) = true by simp [hq']), if_pos ha,
          goQA_body_some body' rest q _ hrest]
        simp only [qOfBody, aOfBody]
        rw [if_neg hblank, if_pos ha, if_neg hblank, if_pos ha]
      · have ha' : isATag (pyStrip l) = false := eq_false_of_ne_true ha
        simp only [goQA]
        rw [if_neg hblank,
          if_neg (show ¬ isQTag (pyStrip l) = true by simp [hq']),
          if_neg (show ¬ isATag (pyStrip l) = true by simp [ha']),
          ih rest _ hrest]
        simp only [qOfBody, aOfBody]
        rw [if_neg hblank,
          if_neg (show ¬ isATag (pyStrip l) = true by simp [ha']),
          if_neg hblank,
          if_neg (show ¬ isATag (pyStrip l) = true by simp [ha'])]

theorem pairsToLists_append (xs ys : List (String × String)) :
    pairsToLists (xs ++ ys) =
      ((pairsToLists xs).1 ++ (pairsToLists ys).1,
       (pairsToLists xs).2 ++ (pairsToLists ys).2) := by
  simp [pairsToLists]

theorem goQA_some_eq_spec : ∀ (fuel : Nat) (rest : List (List Char)) (q : List Char),
    rest.length < fuel →
    goQA rest (some q) none = pairsToLists (specFrom fuel q rest) := by
  intro fuel
  induction fuel with
  | zero =>
    intro rest q hlen
    exact absurd hlen (Nat.not_lt_zero _)
  | succ n ihn =>
    intro rest q hlen
    have hbody : ∀ l ∈ rest.takeWhile notQ, notQ l = true :=
      fun l hl => List.mem_takeWhile_imp hl
    have step : goQA rest (some q) none =
        goQA (rest.dropWhile notQ) (some (qOfBody q (rest.takeWhile notQ)))
          (aOfBody none (rest.takeWhile notQ)) := by
      conv_lhs => rw [← List.takeWhile_append_dropWhile notQ rest]
      exact goQA_body_none _ _ q hbody
    rw [step]
    cases hdrop : rest.dropWhile notQ with
    | nil =>
      simp only [specFrom, hdrop]
      cases haof : aOfBody none (rest.takeWhile notQ) with
      | none => simp [goQA, pairsToLists]
      | some a => simp [goQA, pairsToLists]
    | cons l2 rest3 =>
      have hq2 : isQTag (pyStrip l2) = true := by
        have := dropWhile_head_false notQ rest l2 rest3 hdrop
        simpa [notQ] using this
      have hne2 : pyStrip l2 ≠ [] := isQTag_nonblank _ hq2
      have hlen3 : rest3.length < n := by
        have hd := dropWhile_length_le notQ rest
        rw [hdrop] at hd
        simp only [List.length_cons] at hd
        omega
      simp only [specFrom, hdrop]
      simp only [goQA]
      rw [if_neg hne2]
      simp only [hq2, if_true]
      rw [pairsToLists_append]
      rw [ihn rest3 _ hlen3]
      cases haof : aOfBody none (rest.takeWhile notQ) with
      | none => simp [pairsToLists]
      | some a => simp [pairsToLists]

theorem goQA_eq_spec (ls : List (List Char)) :
    goQA ls none none = pairsToLists (qaPairsSpec ls) := by
  rw [goQA_start ls none]
  cases hdrop : ls.dropWhile notQ with
  | nil => simp [goQA, qaPairsSpec, hdrop, pairsToLists]
  | cons l rest =>
    have hq : isQTag (pyStrip l) = true := by
      have := dropWhile_head_false notQ ls l rest hdrop
      simpa [notQ] using this
    have hne : pyStrip l ≠ [] := isQTag_nonblank _ hq
    simp only [qaPairsSpec, hdrop]
    simp only [goQA]
    rw [if_neg hne]
    simp only [hq, if_true]
    rw [goQA_some_eq_spec (rest.length + 1) rest _ (Nat.lt_succ_self _)]
    simp

/-- Claim C3: parse_qa always returns question and answer sequences of
equal length; moreover parse_qa refines the region-wise specification
qaPairsSpec, under which answers[i] is exactly the answer text (its `A:`
line, the last one of the region, plus its space-joined continuation
lines) that follows questions[i]'s `Q:` line and precedes the next `Q:`
line; and the corpus with one multi-line answer parses to the single
expected pair. -/
theorem claim3_pair_alignment :
    (∀ c : String, (parse_qa c).1.length = (parse_qa c).2.length) ∧
    (∀ c : String,
      parse_qa c = pairsToLists (qaPairsSpec (splitOnNl c.data))) ∧
    parse_qa ("Q: Hi\nA: Hello\nand welcome") =
      ([("Hi")], [("Hello and welcome")]) := by
  refine ⟨?_, ?_, by decide⟩
  · intro c
    have h := goQA_eq_spec (splitOnNl c.data)
    unfold parse_qa
    rw [h]
    simp [pairsToLists]
  · intro c
    exact goQA_eq_spec (splitOnNl c.data)

/-- Claim C10: parse_qa is unchanged when all lines before the first `Q:`
line are dropped, so text from before the first `Q:` line (in particular
an orphan `A:` line and its continuations) never reaches the output; a
concrete orphan-answer corpus yields exactly the pair from its `Q:`
region. -/
theorem claim10_preQ_discarded :
    (∀ c : String,
      parse_qa c = goQA ((splitOnNl c.data).dropWhile notQ) none none) ∧
    parse_qa ("A: orphan answer\nwith continuation\nQ: q\nA: x") =
      ([("q")], [("x")]) := by
  refine ⟨fun c => goQA_start (splitOnNl c.data) none, by decide⟩

theorem no_marker_parse (c : String)
    (h : ∀ l ∈ splitOnNl c.data, isQTag (pyStrip l) = false) :
    parse_qa c = ([], []) := by
  unfold parse_qa
  rw [goQA_start _ none]
  have hnil : (splitOnNl c.data).dropWhile notQ = [] := by
    rw [List.dropWhile_eq_nil_iff]
    intro x hx
    simp [notQ, h x hx]
  rw [hnil]
  rfl

/-- Claim C5: a corpus with no `Q:`/`A:` marker line at all (after
trimming, case-insensitively) parses to zero pairs, and whenever the
matcher construction succeeds on it, the matcher is in sentence mode. -/
theorem claim5_fallback_trigger (c : String)
    (h : ∀ l ∈ splitOnNl c.data,
      isQTag (pyStrip l) = false ∧ isATag (pyStrip l) = false) :
    parse_qa c = ([], []) ∧
    ∀ m, build c = .ok m → m.mode = Mode.sentences := by
  have hp : parse_qa c = ([], []) := no_marker_parse c (fun l hl => (h l hl).1)
  refine ⟨hp, ?_⟩
  intro m hm
  simp only [build, hp] at hm
  rw [if_neg (by simp)] at hm
  by_cases hv : vocabOf (fallbackSentences c) = []
  · rw [if_pos hv] at hm
    exact absurd hm (by simp)
  · rw [if_neg hv] at hm
    obtain rfl : Matcher.sentences (fallbackSentences c) = m := by simpa using hm
    rfl

/-- Witness for C5 at a marker-free corpus. -/
theorem claim5_witness :
    parse_qa ("hello world") = ([], []) ∧
    ∀ m, build ("hello world") = .ok m → m.mode = Mode.sentences :=
  claim5_fallback_trigger ("hello world") (by decide)

theorem strip_nil_of_all_space (l : List Char)
    (h : ∀ ch ∈ l, isSpace ch = true) : pyStrip l = [] := by
  unfold pyStrip
  have h1 : l.dropWhile isSpace = [] := List.dropWhile_eq_nil_iff.mpr h
  rw [h1]
  rfl

theorem splitOnNl_chars : ∀ (cs : List Char) (l : List Char),
    l ∈ splitOnNl cs → ∀ ch ∈ l, ch ∈ cs := by
  intro cs
  induction cs with
  | nil =>
    intro l hl ch hch
    simp only [splitOnNl, List.mem_singleton] at hl
    subst hl
    simp at hch
  | cons c rest ih =>
    intro l hl ch hch
    by_cases hc : c = '\n'
    · simp only [splitOnNl] at hl
      rw [if_pos hc] at hl
      rcases List.mem_cons.1 hl with h0 | h0
      · subst h0
        simp at hch
      · exact List.mem_cons_of_mem c (ih l h0 ch hch)
    · simp only [splitOnNl] at hl
      rw [if_neg hc] at hl
      cases hsp : splitOnNl rest with
      | nil =>
        rw [hsp] at hl
        simp only [List.mem_singleton] at hl
        subst hl
        simp only [List.mem_singleton] at hch
        subst hch
        simp
      | cons x xs =>
        rw [hsp] at hl
        rcases List.mem_cons.1 hl with h0 | h0
        · subst h0
          rcases List.mem_cons.1 hch with h1 | h1
          · subst h1
            simp
          · have hx : x ∈ splitOnNl rest := by
              rw [hsp]
              simp
            exact List.mem_cons_of_mem c (ih x hx ch h1)
        · have hx : l ∈ splitOnNl rest := by
            rw [hsp]
            simp [h0]
          exact List.mem_cons_of_mem c (ih l hx ch hch)

/-- Claim C2 (corrected): the empty corpus builds a sentence-mode matcher
whose single stored item is the fixed non-empty placeholder; but a
non-empty whitespace-only corpus does NOT get the placeholder: the Python
expression `corpus_text or "I have no data yet."` keeps the truthy
whitespace string, whose strip is the empty string, so the single item
has no token and fit_transform raises the empty-vocabulary ValueError. -/
theorem claim2_empty_corpus :
    build ("") = .ok (.sentences [("I have no data yet.")]) ∧
    ∀ c : String, c ≠ "" → (∀ ch ∈ c.data, isSpace ch = true) →
      build c = .error .emptyVocabulary := by
  refine ⟨by decide, ?_⟩
  intro c hc hsp
  have hstrip : pyStrip c.data = [] := strip_nil_of_all_space _ hsp
  have hparse : parse_qa c = ([], []) := by
    apply no_marker_parse
    intro l hl
    have hls : pyStrip l = [] := strip_nil_of_all_space l
      (fun ch hch => hsp ch (splitOnNl_chars c.data l hl ch hch))
    simp [hls, isQTag]
  have hss : splitSentences c = [] := by
    simp only [splitSentences, hstrip]
    rfl
  have hfb : fallbackSentences c = [("")] := by
    simp only [fallbackSentences, hss, if_true]
    rw [if_neg hc]
    simp [pyStripS, hstrip]
  simp only [build, hparse]
  rw [if_neg (by simp)]
  rw [hfb]
  rw [if_pos (by decide)]

/-- Counterexample to C2 as stated: on the whitespace-only corpus the
construction raises instead of producing a one-placeholder matcher. -/
theorem claim2_counterexample : build (" ") = .error .emptyVocabulary := by
  decide

/-- Witness for C2 (amended) at the concrete whitespace-only corpus. -/
theorem claim2_witness :
    (" " : String) ≠ "" ∧ build (" ") = .error .emptyVocabulary :=
  ⟨by decide, claim2_empty_corpus.2 (" ") (by decide) (by decide)⟩

/-- Claim C1 (corrected): construction succeeds exactly when the selected
item list has a non-empty vocabulary, and every successful construction
has at least one stored item and a non-empty vector space; but corpora
whose selected items contain no word character at all (whitespace-only or
punctuation-only) make fit_transform raise, contrary to the never-fails
claim. -/
theorem claim1_construction (c : String) :
    ((∃ m, build c = .ok m) ↔ vocabOf (selectedItems c) ≠ []) ∧
    (∀ m, build c = .ok m → m.items ≠ [] ∧ vocabOf m.items ≠ []) := by
  constructor
  · simp only [build, selectedItems]
    by_cases hg : (parse_qa c).1 ≠ [] ∧ (parse_qa c).2 ≠ [] ∧
        (parse_qa c).1.length = (parse_qa c).2.length
    · rw [if_pos hg, if_pos hg]
      by_cases hv : vocabOf (parse_qa c).1 = []
      · rw [if_pos hv]
        simp [hv]
      · rw [if_neg hv]
        simp [hv]
    · rw [if_neg hg, if_neg hg]
      by_cases hv : vocabOf (fallbackSentences c) = []
      · rw [if_pos hv]
        simp [hv]
      · rw [if_neg hv]
        simp [hv]
  · intro m hm
    have h := build_ok_facts c m hm
    exact ⟨h.1, h.2.2⟩

/-- Counterexample to C1 as stated: a punctuation-only corpus (its one
sentence item has no word character) makes construction raise the
empty-vocabulary error. -/
theorem claim1_counterexample : build ("???") = .error .emptyVocabulary := by
  decide

/-- Witness for C1 (amended) at a corpus that does build. -/
theorem claim1_witness :
    Matcher.items (.sentences [("hello")]) ≠ [] ∧
    vocabOf (Matcher.items (.sentences [("hello")])) ≠ [] :=
  (claim1_construction ("hello")).2 (.sentences [("hello")]) (by decide)

theorem resplitAux_ne_nil : ∀ (l acc : List Char), resplitAux l acc ≠ [] := by
  intro l
  induction l with
  | nil =>
    intro acc
    simp [resplitAux]
  | cons c rest ih =>
    intro acc
    by_cases hb : (isSpace c && punctHead acc) = true
    · simp only [resplitAux, hb, if_true]
      simp
    · simp only [resplitAux]
      rw [if_neg hb]
      exact ih (c :: acc)

theorem joinSp_cons (f : List Char) (xs : List (List Char)) (h : xs ≠ []) :
    joinSp (f :: xs) = f ++ ' ' :: joinSp xs := by
  cases xs with
  | nil => exact absurd rfl h
  | cons g ys => rfl

theorem joinSp_resplitAux : ∀ (l acc : List Char),
    (∀ c ∈ l, isSpace c = true → c = ' ') →
    joinSp (resplitAux l acc) = acc.reverse ++ l := by
  intro l
  induction l with
  | nil =>
    intro acc _
    simp [resplitAux, joinSp]
  | cons c rest ih =>
    intro acc hws
    have hrest : ∀ x ∈ rest, isSpace x = true → x = ' ' :=
      fun x hx => hws x (by simp [hx])
    by_cases hb : (isSpace c && punctHead acc) = true
    · obtain ⟨hcs, hph⟩ : isSpace c = true ∧ punctHead acc = true := by
        simpa using hb
      have hc : c = ' ' := hws c (by simp) hcs
      simp only [resplitAux, hb, if_true]
      rw [joinSp_cons _ _ (resplitAux_ne_nil rest []), ih [] hrest]
      simp [hc]
    · simp only [resplitAux]
      rw [if_neg hb, ih (c :: acc) hrest]
      simp

theorem collapseWS_space_is_blank : ∀ (l : List Char) (c : Char),
    c ∈ collapseWS l → isSpace c = true → c = ' ' := by
  have hsq : ∀ (l : List Char) (c : Char), c ∈ squeeze l → c ∈ l := by
    intro l
    induction l with
    | nil => intro c hc; simp [squeeze] at hc
    | cons a rest ihs =>
      intro c hc
      cases rest with
      | nil => simpa [squeeze] using hc
      | cons b rest2 =>
        by_cases hab : (a = ' ' && b = ' ') = true
        · simp only [squeeze, hab, if_true] at hc
          exact List.mem_cons_of_mem a (ihs c hc)
        · simp only [squeeze] at hc
          rw [if_neg hab] at hc
          rcases List.mem_cons.1 hc with h0 | h0
          · simp [h0]
          · exact List.mem_cons_of_mem a (ihs c h0)
  intro l c hc hcs
  have hmem : c ∈ l.map toSpace := hsq _ c hc
  obtain ⟨y, _, rfl⟩ := List.mem_map.1 hmem
  unfold toSpace at hcs ⊢
  by_cases hy : isSpace y = true
  · rw [if_pos hy]
  · rw [if_neg hy] at hcs
    rw [if_neg hy]
    exact absurd hcs hy

theorem resplit_dropLast_punct : ∀ (l acc : List Char) (f : List Char),
    f ∈ (resplitAux l acc).dropLast → punctHead f.reverse = true := by
  intro l
  induction l with
  | nil =>
    intro acc f hf
    simp [resplitAux] at hf
  | cons c rest ih =>
    intro acc f hf
    by_cases hb : (isSpace c && punctHead acc) = true
    · simp only [resplitAux, hb, if_true] at hf
      rw [List.dropLast_cons_of_ne_nil (resplitAux_ne_nil rest [])] at hf
      rcases List.mem_cons.1 hf with h0 | h0
      · subst h0
        rw [List.reverse_reverse]
        obtain ⟨_, hph⟩ : isSpace c = true ∧ punctHead acc = true := by
          simpa using hb
        exact hph
      · exact ih [] f h0
    · simp only [resplitAux] at hf
      rw [if_neg hb] at hf
      exact ih (c :: acc) f hf

theorem resplit_no_internal_boundary : ∀ (l acc : List Char),
    List.Chain' (fun a b => ¬(isPunct a = true ∧ isSpace b = true)) acc.reverse →
    ∀ f ∈ resplitAux l acc,
      List.Chain' (fun a b => ¬(isPunct a = true ∧ isSpace b = true)) f := by
  intro l
  induction l with
  | nil =>
    intro acc hacc f hf
    simp only [resplitAux, List.mem_singleton] at hf
    subst hf
    exact hacc
  | cons c rest ih =>
    intro acc hacc f hf
    by_cases hb : (isSpace c && punctHead acc) = true
    · simp only [resplitAux, hb, if_true] at hf
      rcases List.mem_cons.1 hf with h0 | h0
      · subst h0
        exact hacc
      · exact ih [] List.chain'_nil f h0
    · simp only [resplitAux] at hf
      rw [if_neg hb] at hf
      have hstep : List.Chain' (fun a b => ¬(isPunct a = true ∧ isSpace b = true))
          (c :: acc).reverse := by
        rw [List.reverse_cons]
        rw [List.chain'_append]
        refine ⟨hacc, List.chain'_singleton c, ?_⟩
        intro x hx y hy
        simp only [List.head?_cons, Option.mem_def, Option.some.injEq] at hy
        subst hy
        rw [List.getLast?_reverse] at hx
        cases acc with
        | nil => simp at hx
        | cons p acc2 =>
          simp only [List.head?_cons, Option.mem_def, Option.some.injEq] at hx
          subst hx
          intro hcontra
          apply hb
          rw [Bool.and_eq_true]
          exact ⟨hcontra.2, by simp [punctHead, hcontra.1]⟩
      exact ih (c :: acc) hstep f hf

/-- Claim C9: sentence splitting collapses whitespace runs and trims
first; an empty result gives an empty sequence; otherwise the text is cut
exactly at the boundaries where a whitespace follows one of the
characters in point exclamation question (the fragments space-join back
to the collapsed text, every fragment except the last ends in such a
punctuation character, no fragment contains an internal
punctuation-then-whitespace boundary), empty fragments are discarded, and
the two-sentence example splits into its two sentences. -/
theorem claim9_sentence_splitting :
    (∀ s : String, collapseWS (pyStrip s.data) = [] → splitSentences s = []) ∧
    (∀ (s : String) (f : String), f ∈ splitSentences s → f ≠ "") ∧
    (∀ s : String,
      joinSp (resplitAux (collapseWS (pyStrip s.data)) []) =
        collapseWS (pyStrip s.data)) ∧
    (∀ (t : List Char) (f : List Char),
      f ∈ (resplitAux t []).dropLast → punctHead f.reverse = true) ∧
    (∀ (t : List Char) (f : List Char), f ∈ resplitAux t [] →
      List.Chain' (fun a b => ¬(isPunct a = true ∧ isSpace b = true)) f) ∧
    splitSentences ("The sky is blue. Water is wet.") =
      [("The sky is blue."), ("Water is wet.")] := by
  refine ⟨?_, ?_, ?_, ?_, ?_, by decide⟩
  · intro s h
    simp [splitSentences, h]
  · intro s f hf
    simp only [splitSentences] at hf
    by_cases ht : collapseWS (pyStrip s.data) = []
    · rw [if_pos ht] at hf
      simp at hf
    · rw [if_neg ht] at hf
      obtain ⟨l, hl, rfl⟩ := List.mem_map.1 hf
      have hne : (!l.isEmpty) = true := (List.mem_filter.1 hl).2
      intro hcontra
      have hdata : l = [] := congrArg String.data hcontra
      rw [hdata] at hne
      simp at hne
  · intro s
    exact joinSp_resplitAux _ []
      (fun c hc hcs => collapseWS_space_is_blank _ c hc hcs)
  · intro t f hf
    exact resplit_dropLast_punct t [] f hf
  · intro t f hf
    exact resplit_no_internal_boundary t [] List.chain'_nil f hf

/-- Witness for C9: the empty corpus splits to no sentence, and the first
fragment of the two-sentence example is a non-empty member. -/
theorem claim9_witness :
    splitSentences ("") = [] ∧ ("The sky is blue." : String) ≠ "" :=
  ⟨claim9_sentence_splitting.1 ("") (by decide),
   claim9_sentence_splitting.2.1 ("The sky is blue. Water is wet.")
     ("The sky is blue.") (by decide)⟩
